import Mathlib

/-!
Shallow embedding of the client-side cryptographic core of the
Secure-File-Encryption-Decryption repository.

Bytes are modelled as `Nat` values below 256 (the source works on
`Uint8Array`s), byte buffers as `List Nat`, and base64/text data as
`String`.  The browser primitives `crypto.subtle.encrypt/decrypt`
(AES-GCM) are modelled by an abstract `AEAD` structure whose correctness
laws appear as explicit hypotheses of the theorems; everything the
repository's own code does (base64 codec, buffer splitting and
reassembly, XOR secret sharing, share-link gating, key rotation
plumbing) is embedded directly from the source.
-/

namespace SecureVault

/-! ### Base64 codec
`CryptoUtils.arrayBufferToBase64` builds a latin-1 string from the bytes
and calls `btoa`; `CryptoUtils.base64ToArrayBuffer` calls `atob` and
reads the char codes back.  We embed `btoa`/`atob` directly on byte
lists: standard base64 with `=` padding on encode, and a decoder that
rejects non-alphabet characters and misplaced padding (as `atob` does,
throwing `InvalidCharacterError`), accepts a final unpadded group of 2
or 3 characters, and discards leftover bits (as `atob`'s
forgiving-base64 algorithm does).  Whitespace stripping is not modelled:
no source path feeds whitespace into `atob`. -/

def b64Alphabet : List Char :=
  "ABCDEFGHIJKLMNOPQRSTUVWXYZabcdefghijklmnopqrstuvwxyz0123456789+/".data

/-- The base64 digit for a 6-bit value. -/
def encChar (n : Nat) : Char := b64Alphabet.getD n 'A'

/-- The 6-bit value of a base64 digit; `none` for non-alphabet characters. -/
def decChar (c : Char) : Option Nat :=
  if c ∈ b64Alphabet then some (b64Alphabet.indexOf c) else none

/-- Embeds `btoa` on a byte list: emit one 4-character group per 3 input bytes,
padding the final partial group with `=`. -/
def encodeB64 : List Nat → List Char
  | [] => []
  | [a] => [encChar (a / 4), encChar (a % 4 * 16), '=', '=']
  | [a, b] => [encChar (a / 4), encChar (a % 4 * 16 + b / 16), encChar (b % 16 * 4), '=']
  | a :: b :: c :: rest =>
      encChar (a / 4) :: encChar (a % 4 * 16 + b / 16) ::
      encChar (b % 16 * 4 + c / 64) :: encChar (c % 64) :: encodeB64 rest

/-- Embeds `atob` on a character list (forgiving base64, without the whitespace
strip): `none` models the `InvalidCharacterError` throw. -/
def decodeB64 : List Char → Option (List Nat)
  | [] => some []
  | [c1, c2] =>
      match decChar c1, decChar c2 with
      | some s1, some s2 => some [s1 * 4 + s2 / 16]
      | _, _ => none
  | [c1, c2, c3] =>
      match decChar c1, decChar c2, decChar c3 with
      | some s1, some s2, some s3 => some [s1 * 4 + s2 / 16, s2 % 16 * 16 + s3 / 4]
      | _, _, _ => none
  | c1 :: c2 :: c3 :: c4 :: rest =>
      if c3 = '=' then
        if c4 = '=' ∧ rest = [] then
          match decChar c1, decChar c2 with
          | some s1, some s2 => some [s1 * 4 + s2 / 16]
          | _, _ => none
        else none
      else if c4 = '=' then
        if rest = [] then
          match decChar c1, decChar c2, decChar c3 with
          | some s1, some s2, some s3 => some [s1 * 4 + s2 / 16, s2 % 16 * 16 + s3 / 4]
          | _, _, _ => none
        else none
      else
        match decChar c1, decChar c2, decChar c3, decChar c4, decodeB64 rest with
        | some s1, some s2, some s3, some s4, some tail =>
            some ([s1 * 4 + s2 / 16, s2 % 16 * 16 + s3 / 4, s3 % 4 * 64 + s4] ++ tail)
        | _, _, _, _, _ => none
  | _ => none

/-- Embeds `CryptoUtils.arrayBufferToBase64`. -/
def arrayBufferToBase64 (buffer : List Nat) : String := String.mk (encodeB64 buffer)

/-- Embeds `CryptoUtils.base64ToArrayBuffer`; `none` models the uncaught
`InvalidCharacterError` that `atob` throws on malformed input. -/
def base64ToArrayBuffer (base64 : String) : Option (List Nat) := decodeB64 base64.data

theorem divmod_pack (q r k : Nat) (hk : 0 < k) (hr : r < k) :
    (q * k + r) / k = q ∧ (q * k + r) % k = r := by
  constructor
  · rw [Nat.add_comm, Nat.add_mul_div_right _ _ hk, Nat.div_eq_of_lt hr, Nat.zero_add]
  · rw [Nat.add_comm, Nat.add_mul_mod_self_right, Nat.mod_eq_of_lt hr]

theorem decChar_encChar : ∀ n : Nat, n < 64 → decChar (encChar n) = some n := by decide

theorem encChar_ne_pad : ∀ n : Nat, n < 64 → encChar n ≠ '=' := by decide

theorem decodeB64_encodeB64 :
    ∀ bs : List Nat, (∀ x ∈ bs, x < 256) → decodeB64 (encodeB64 bs) = some bs
  | [], _ => rfl
  | [a], h => by
      have ha : a < 256 := h a (by simp)
      have h1 : a / 4 < 64 := by omega
      have h2 : a % 4 * 16 < 64 := by omega
      have e1 : a % 4 * 16 / 16 = a % 4 := Nat.mul_div_cancel (a % 4) (by norm_num)
      simp [encodeB64, decodeB64, decChar_encChar _ h1, decChar_encChar _ h2, e1]
      omega
  | [a, b], h => by
      have ha : a < 256 := h a (by simp)
      have hb : b < 256 := h b (by simp)
      have h1 : a / 4 < 64 := by omega
      have h2 : a % 4 * 16 + b / 16 < 64 := by omega
      have h3 : b % 16 * 4 < 64 := by omega
      have d2 := divmod_pack (a % 4) (b / 16) 16 (by norm_num) (by omega)
      have e3 : b % 16 * 4 / 4 = b % 16 := Nat.mul_div_cancel (b % 16) (by norm_num)
      simp [encodeB64, decodeB64, decChar_encChar _ h1, decChar_encChar _ h2,
        decChar_encChar _ h3, encChar_ne_pad _ h3, d2.1, d2.2, e3]
      omega
  | a :: b :: c :: rest, h => by
      have ha : a < 256 := h a (by simp)
      have hb : b < 256 := h b (by simp)
      have hc : c < 256 := h c (by simp)
      have h1 : a / 4 < 64 := by omega
      have h2 : a % 4 * 16 + b / 16 < 64 := by omega
      have h3 : b % 16 * 4 + c / 64 < 64 := by omega
      have h4 : c % 64 < 64 := by omega
      have ih := decodeB64_encodeB64 rest (fun x hx => h x (by simp [hx]))
      have d2 := divmod_pack (a % 4) (b / 16) 16 (by norm_num) (by omega)
      have d3 := divmod_pack (b % 16) (c / 64) 4 (by norm_num) (by omega)
      simp [encodeB64, decodeB64, decChar_encChar _ h1, decChar_encChar _ h2,
        decChar_encChar _ h3, decChar_encChar _ h4, encChar_ne_pad _ h3,
        encChar_ne_pad _ h4, ih, d2.1, d2.2, d3.1, d3.2]
      omega

theorem base64_roundtrip (bs : List Nat) (h : ∀ x ∈ bs, x < 256) :
    base64ToArrayBuffer (arrayBufferToBase64 bs) = some bs := by
  simpa [base64ToArrayBuffer, arrayBufferToBase64] using decodeB64_encodeB64 bs h

/-! ### Text codec
`TextEncoder.encode` / `TextDecoder.decode` are the standard UTF-8
codec.  The decoder is total like `TextDecoder`: a byte sequence that is
not valid UTF-8 decodes with U+FFFD replacement characters (we replace
one offending byte at a time, which agrees with `TextDecoder` on every
input used in this development). -/

/-- One character of `TextEncoder.encode` (standard UTF-8). -/
def utf8EncodeChar (c : Char) : List Nat :=
  let n := c.toNat
  if n < 128 then [n]
  else if n < 2048 then [192 + n / 64, 128 + n % 64]
  else if n < 65536 then [224 + n / 4096, 128 + n / 64 % 64, 128 + n % 64]
  else [240 + n / 262144, 128 + n / 4096 % 64, 128 + n / 64 % 64, 128 + n % 64]

/-- Embeds `new TextEncoder().encode(s)` as a byte list. -/
def utf8Encode (s : String) : List Nat := s.data.flatMap utf8EncodeChar

/-- Is `b` a UTF-8 continuation byte (`10xxxxxx`)? -/
def isCont (b : Nat) : Bool := 128 ≤ b && b < 192

/-- Embeds `new TextDecoder().decode` on a byte list: standard UTF-8 decoding,
emitting U+FFFD for bytes that do not start a valid sequence. -/
def utf8DecodeChars : List Nat → List Char
  | [] => []
  | b1 :: rest =>
      if b1 < 128 then Char.ofNat b1 :: utf8DecodeChars rest
      else if 194 ≤ b1 ∧ b1 < 224 then
        match rest with
        | b2 :: rest2 =>
            if isCont b2 then Char.ofNat ((b1 - 192) * 64 + (b2 - 128)) :: utf8DecodeChars rest2
            else '�' :: utf8DecodeChars (b2 :: rest2)
        | [] => ['�']
      else if 224 ≤ b1 ∧ b1 < 240 then
        match rest with
        | b2 :: b3 :: rest3 =>
            if isCont b2 ∧ isCont b3 ∧ (b1 ≠ 224 ∨ 160 ≤ b2) ∧ (b1 ≠ 237 ∨ b2 < 160) then
              Char.ofNat ((b1 - 224) * 4096 + (b2 - 128) * 64 + (b3 - 128)) :: utf8DecodeChars rest3
            else '�' :: utf8DecodeChars (b2 :: b3 :: rest3)
        | short => '�' :: utf8DecodeChars short
      else if 240 ≤ b1 ∧ b1 < 245 then
        match rest with
        | b2 :: b3 :: b4 :: rest4 =>
            if isCont b2 ∧ isCont b3 ∧ isCont b4 ∧ (b1 ≠ 240 ∨ 144 ≤ b2) ∧ (b1 ≠ 244 ∨ b2 < 144) then
              Char.ofNat ((b1 - 240) * 262144 + (b2 - 128) * 4096 + (b3 - 128) * 64 + (b4 - 128)) ::
                utf8DecodeChars rest4
            else '�' :: utf8DecodeChars (b2 :: b3 :: b4 :: rest4)
        | short => '�' :: utf8DecodeChars short
      else '�' :: utf8DecodeChars rest

/-- Embeds `new TextDecoder().decode(bytes)`. -/
def utf8Decode (bytes : List Nat) : String := String.mk (utf8DecodeChars bytes)

theorem utf8EncodeChar_lt (c : Char) : ∀ x ∈ utf8EncodeChar c, x < 256 := by
  have hval : c.toNat < 1114112 := by
    rcases c.valid with h | ⟨_, h2⟩
    · exact Nat.lt_trans h (by norm_num)
    · exact h2
  intro x hx
  simp only [utf8EncodeChar] at hx
  split at hx
  · simp at hx; omega
  · split at hx
    · simp at hx; rcases hx with h | h <;> omega
    · split at hx
      · simp at hx; rcases hx with h | h | h <;> omega
      · simp at hx; rcases hx with h | h | h | h <;> omega

theorem utf8Encode_lt (s : String) : ∀ x ∈ utf8Encode s, x < 256 := by
  intro x hx
  rcases List.mem_flatMap.mp hx with ⟨c, _, hc⟩
  exact utf8EncodeChar_lt c x hc

/-! ### Symmetric cipher engine (`CryptoUtils`)
`crypto.subtle` AES-GCM is an external primitive; it is modelled by an
abstract `AEAD` packet whose `enc` maps key, 12-byte IV and plaintext to
the output buffer (ciphertext followed by the 16-byte tag) and whose
`dec` verifies and inverts it (`none` models the rejection that
`crypto.subtle.decrypt` signals by throwing).  The laws the theorems
assume of it are stated as named predicates below and are discharged on
a concrete instance in the witnesses. -/

structure AEAD (Key : Type) where
  enc : Key → List Nat → List Nat → List Nat
  dec : Key → List Nat → List Nat → Option (List Nat)

/-- Decryption inverts encryption under the same key and IV. -/
def AEADCorrect {K : Type} (A : AEAD K) : Prop :=
  ∀ k iv m, A.dec k iv (A.enc k iv m) = some m

/-- The output buffer is the ciphertext followed by a 16-byte tag, and
AES-GCM ciphertext has the plaintext's length. -/
def AEADTagLen {K : Type} (A : AEAD K) : Prop :=
  ∀ k iv m, (A.enc k iv m).length = m.length + 16

/-- The output buffer consists of bytes. -/
def AEADBytes {K : Type} (A : AEAD K) : Prop :=
  ∀ k iv m, (∀ x ∈ m, x < 256) → ∀ x ∈ A.enc k iv m, x < 256

/-- Decryption under a different key rejects (the ideal-cipher reading
of GCM tag verification). -/
def AEADKeySep {K : Type} (A : AEAD K) : Prop :=
  ∀ k k', k ≠ k' → ∀ iv m, A.dec k' iv (A.enc k iv m) = none

structure EncryptionResult where
  encryptedData : String
  iv : String
  authTag : String
  deriving DecidableEq

/-- Embeds `CryptoUtils.encryptData` on an `ArrayBuffer` payload.  The random
12-byte IV drawn by `crypto.getRandomValues` is passed explicitly.
`slice(0, -16)` and `slice(-16)` become `take`/`drop` at
`length - 16`. -/
def encryptData {K : Type} (A : AEAD K) (data : List Nat) (key : K) (iv : List Nat) :
    EncryptionResult :=
  let encryptedArray := A.enc key iv data
  let authTagLength := 16
  let ciphertext := encryptedArray.take (encryptedArray.length - authTagLength)
  let authTag := encryptedArray.drop (encryptedArray.length - authTagLength)
  { encryptedData := arrayBufferToBase64 ciphertext
    iv := arrayBufferToBase64 iv
    authTag := arrayBufferToBase64 authTag }

/-- Embeds `CryptoUtils.encryptData` on a string payload (`TextEncoder` first). -/
def encryptDataStr {K : Type} (A : AEAD K) (data : String) (key : K) (iv : List Nat) :
    EncryptionResult :=
  encryptData A (utf8Encode data) key iv

inductive DecError where
  /-- The uncaught `InvalidCharacterError` thrown by `atob` on malformed
  base64 input (the decoding calls sit before the `try` block). -/
  | formatError
  /-- The generic `Error('Decryption failed: Invalid key or corrupted data')`. -/
  | decryptionError
  deriving DecidableEq

/-- Embeds `CryptoUtils.decryptData`: decode the three base64 fields, reassemble
`ciphertext ++ authTag`, and run authenticated decryption; only the
cipher's rejection is wrapped into the generic decryption error. -/
def decryptData {K : Type} (A : AEAD K) (encryptedData iv authTag : String) (key : K) :
    Except DecError (List Nat) :=
  match base64ToArrayBuffer encryptedData, base64ToArrayBuffer iv,
      base64ToArrayBuffer authTag with
  | some ciphertext, some ivBuffer, some authTagBuffer =>
      match A.dec key ivBuffer (ciphertext ++ authTagBuffer) with
      | some decrypted => Except.ok decrypted
      | none => Except.error DecError.decryptionError
  | _, _, _ => Except.error DecError.formatError

/-- Embeds `CryptoUtils.importKey`: base64-decode the key string and hand
the buffer to `crypto.subtle.importKey('raw', …)`.  The source performs
no length check of its own; per the Web Cryptography API the `length`
member of the algorithm dictionary is ignored on import, and the raw AES
importing step throws `DataError` (modelled as `none`) exactly when the
key material is not 128, 192 or 256 bits — so 16- and 24-byte buffers import
as usable AES-128/192 keys. -/
def importKey (keyString : String) : Option (List Nat) :=
  match base64ToArrayBuffer keyString with
  | some keyBuffer =>
      if keyBuffer.length = 16 ∨ keyBuffer.length = 24 ∨ keyBuffer.length = 32 then
        some keyBuffer
      else none
  | none => none

/-- Embeds `CryptoUtils.hashPassword`: UTF-8 encode, digest, base64 encode.  The
SHA-256 primitive `crypto.subtle.digest` is passed as an abstract
function of the input bytes. -/
def hashPassword (digest : List Nat → List Nat) (password : String) : String :=
  arrayBufferToBase64 (digest (utf8Encode password))

/-! ### Secret splitter (`CryptoUtils.splitSecretShamir` / `reconstructSecretShamir`) -/

inductive ShareType where
  | user_share
  | recovery_share
  | device_share
  deriving DecidableEq

structure ShamirShare where
  shareType : ShareType
  encryptedShare : String
  deriving DecidableEq

/-- Byte-wise XOR of two buffers (the JS loop `out[i] = x[i] ^ y[i]`). -/
def xorBytes (xs ys : List Nat) : List Nat := List.zipWith (fun a b => a ^^^ b) xs ys

/-- Embeds `CryptoUtils.splitSecretShamir`.  The two buffers filled by
`crypto.getRandomValues(new Uint8Array(secretBytes.length))` are passed
explicitly as `r1` and `r2`. -/
def splitSecretShamir (secret : String) (r1 r2 : List Nat) : List ShamirShare :=
  let secretBytes := utf8Encode secret
  let share3 := xorBytes (xorBytes secretBytes r1) r2
  [ { shareType := ShareType.user_share, encryptedShare := arrayBufferToBase64 r1 }
  , { shareType := ShareType.recovery_share, encryptedShare := arrayBufferToBase64 r2 }
  , { shareType := ShareType.device_share, encryptedShare := arrayBufferToBase64 share3 } ]

inductive ReconstructError where
  /-- Uncaught `InvalidCharacterError` from `atob` on a malformed share. -/
  | formatError
  /-- `Error('Share lengths do not match')`. -/
  | lengthMismatch
  deriving DecidableEq

/-- Embeds `CryptoUtils.reconstructSecretShamir`: decode both shares, compare
lengths, XOR byte-wise, decode the result as text. -/
def reconstructSecretShamir (share1 share2 : String) : Except ReconstructError String :=
  match base64ToArrayBuffer share1, base64ToArrayBuffer share2 with
  | some bytes1, some bytes2 =>
      if bytes1.length ≠ bytes2.length then Except.error ReconstructError.lengthMismatch
      else Except.ok (utf8Decode (xorBytes bytes1 bytes2))
  | _, _ => Except.error ReconstructError.formatError

/-! ### Share-link access control (`ShareService`) -/

structure ShareLink where
  token : String
  password_hash : Option String
  /-- Field `expires_at` as a millisecond timestamp; `none` is SQL `NULL`. -/
  expires_at : Option Nat
  one_time_view : Bool
  view_count : Nat
  max_views : Option Nat
  is_active : Bool
  deriving DecidableEq

/-- JS truthiness of a nullable string (`null` and `''` are falsy). -/
def strTruthy : Option String → Bool
  | some s => s != ""
  | none => false

/-- JS truthiness of a nullable number (`null` and `0` are falsy). -/
def natTruthy : Option Nat → Bool
  | some n => n != 0
  | none => false

/-- Embeds `ShareService.validateShareAccess`.  `now` is the current clock
(`new Date()`), and the SHA-256 primitive inside `hashPassword` is the
abstract `digest`.  The structure of guards mirrors the source:
expiry, then view-count, then the password comparison. -/
def validateShareAccess (digest : List Nat → List Nat) (now : Nat)
    (shareLink : ShareLink) (password : Option String) : Bool :=
  if (match shareLink.expires_at with
      | some t => decide (t < now)
      | none => false) then false
  else if (match shareLink.max_views with
      | some m => natTruthy (some m) && decide (shareLink.view_count ≥ m)
      | none => false) then false
  else if strTruthy shareLink.password_hash && strTruthy password then
    if hashPassword digest (password.getD "") != shareLink.password_hash.getD "" then false
    else true
  else if strTruthy shareLink.password_hash && !strTruthy password then false
  else true

/-- Embeds `ShareService.incrementViewCount` as the state transition it performs
on the share row: bump `view_count`, and deactivate the link when it is
one-time-view or the new count reaches `max_views`. -/
def incrementViewCount (share : ShareLink) : ShareLink :=
  let newViewCount := share.view_count + 1
  let updated := { share with view_count := newViewCount }
  if share.one_time_view ||
      (natTruthy share.max_views && decide (newViewCount ≥ share.max_views.getD 0)) then
    { updated with is_active := false }
  else updated

/-- Embeds `ShareService.getShareByToken`: the stored row with this token,
filtered by `eq('is_active', true)`. -/
def getShareByToken (links : List ShareLink) (token : String) : Option ShareLink :=
  links.find? (fun l => l.token == token && l.is_active)

/-! ### File crypto workflow (`FileService.regenerateFileKey`) -/

structure EncryptedFileRow where
  encrypted_data : String
  iv : String
  auth_tag : String
  version : Nat
  deriving DecidableEq

/-- Embeds `FileService.regenerateFileKey` restricted to its effect on the
`encrypted_files` row: decrypt with the old key (`none` models the
rethrow on failure), encrypt with the fresh key and fresh IV, store the
new `EncryptionResult` and bump `version` by one. -/
def regenerateFileKey {K : Type} (A : AEAD K) (file : EncryptedFileRow)
    (oldKey newKey : K) (newIv : List Nat) : Option EncryptedFileRow :=
  match decryptData A file.encrypted_data file.iv file.auth_tag oldKey with
  | Except.error _ => none
  | Except.ok decrypted =>
      let newEncryption := encryptData A decrypted newKey newIv
      some { encrypted_data := newEncryption.encryptedData
             iv := newEncryption.iv
             auth_tag := newEncryption.authTag
             version := file.version + 1 }

/-! ### A concrete AEAD instance for witnesses
A toy cipher over keys drawn from `Fin 256`: the output buffer is the
plaintext followed by a 16-byte tag recording the key.  It satisfies
every law assumed of the abstract AES-GCM packet and lets the witness
theorems evaluate the embedded code on concrete inputs. -/

def toyTag (k : Fin 256) : List Nat := k.val :: List.replicate 15 0

def toyAEAD : AEAD (Fin 256) where
  enc := fun k _ m => m ++ toyTag k
  dec := fun k _ c =>
    if 16 ≤ c.length ∧ c.drop (c.length - 16) = toyTag k then
      some (c.take (c.length - 16))
    else none

theorem toyTag_length (k : Fin 256) : (toyTag k).length = 16 := by
  simp [toyTag]

theorem toy_correct : AEADCorrect toyAEAD := by
  intro k iv m
  have hlen : (m ++ toyTag k).length = m.length + 16 := by simp [toyTag]
  have hdrop : (m ++ toyTag k).drop ((m ++ toyTag k).length - 16) = toyTag k := by
    rw [hlen, Nat.add_sub_cancel]
    simp
  have htake : (m ++ toyTag k).take ((m ++ toyTag k).length - 16) = m := by
    rw [hlen, Nat.add_sub_cancel]
    simp
  simp only [toyAEAD, AEADCorrect]
  rw [if_pos ⟨by omega, hdrop⟩, htake]

theorem toy_taglen : AEADTagLen toyAEAD := by
  intro k iv m
  simp [toyAEAD, toyTag]

theorem toy_bytes : AEADBytes toyAEAD := by
  intro k iv m hm x hx
  simp only [toyAEAD, toyTag, List.mem_append, List.mem_cons, List.mem_replicate] at hx
  rcases hx with h | h | h
  · exact hm x h
  · exact h ▸ k.isLt
  · omega

theorem toy_keysep : AEADKeySep toyAEAD := by
  intro k k' hne iv m
  have hlen : (m ++ toyTag k).length = m.length + 16 := by simp [toyTag]
  have hdrop : (m ++ toyTag k).drop ((m ++ toyTag k).length - 16) = toyTag k := by
    rw [hlen, Nat.add_sub_cancel]
    simp
  simp only [toyAEAD]
  rw [if_neg]
  rintro ⟨-, htag⟩
  rw [hdrop] at htag
  have : k.val = k'.val := by
    simpa [toyTag] using htag
  exact hne (Fin.val_injective this)

/-! ### Engine lemmas shared by the claim theorems -/

theorem encryptData_fields {K : Type} (A : AEAD K) (hL : AEADTagLen A) (hB : AEADBytes A)
    (data : List Nat) (key : K) (iv : List Nat)
    (hdata : ∀ x ∈ data, x < 256) (hiv : ∀ x ∈ iv, x < 256) :
    base64ToArrayBuffer (encryptData A data key iv).encryptedData
        = some ((A.enc key iv data).take data.length) ∧
    base64ToArrayBuffer (encryptData A data key iv).iv = some iv ∧
    base64ToArrayBuffer (encryptData A data key iv).authTag
        = some ((A.enc key iv data).drop data.length) := by
  have hlen : (A.enc key iv data).length = data.length + 16 := hL key iv data
  have hsub : (A.enc key iv data).length - 16 = data.length := by omega
  have hout : ∀ x ∈ A.enc key iv data, x < 256 := hB key iv data hdata
  have htake : ∀ x ∈ (A.enc key iv data).take data.length, x < 256 :=
    fun x hx => hout x (List.take_subset _ _ hx)
  have hdrop : ∀ x ∈ (A.enc key iv data).drop data.length, x < 256 :=
    fun x hx => hout x (List.drop_subset _ _ hx)
  refine ⟨?_, ?_, ?_⟩
  · simpa [encryptData, hsub] using base64_roundtrip _ htake
  · simpa [encryptData] using base64_roundtrip _ hiv
  · simpa [encryptData, hsub] using base64_roundtrip _ hdrop

theorem decryptData_encryptData {K : Type} (A : AEAD K)
    (hC : AEADCorrect A) (hL : AEADTagLen A) (hB : AEADBytes A)
    (data : List Nat) (key : K) (iv : List Nat)
    (hdata : ∀ x ∈ data, x < 256) (hiv : ∀ x ∈ iv, x < 256) :
    decryptData A (encryptData A data key iv).encryptedData
      (encryptData A data key iv).iv (encryptData A data key iv).authTag key
      = Except.ok data := by
  obtain ⟨h1, h2, h3⟩ := encryptData_fields A hL hB data key iv hdata hiv
  rw [decryptData, h1, h2, h3]
  simp only [List.take_append_drop]
  rw [hC key iv data]

theorem decryptData_encryptData_wrongKey {K : Type} (A : AEAD K)
    (hL : AEADTagLen A) (hB : AEADBytes A) (hS : AEADKeySep A)
    (data : List Nat) (key other : K) (hne : key ≠ other) (iv : List Nat)
    (hdata : ∀ x ∈ data, x < 256) (hiv : ∀ x ∈ iv, x < 256) :
    decryptData A (encryptData A data key iv).encryptedData
      (encryptData A data key iv).iv (encryptData A data key iv).authTag other
      = Except.error DecError.decryptionError := by
  obtain ⟨h1, h2, h3⟩ := encryptData_fields A hL hB data key iv hdata hiv
  rw [decryptData, h1, h2, h3]
  simp only [List.take_append_drop]
  rw [hS key other hne iv data]

/-! ### Claim theorems -/

/-- Claim C1: for every byte sequence `b` and key `k` of the
authenticated cipher, decrypting the `EncryptionResult` produced by
`CryptoUtils.encryptData` on `b` under `k` with the same `k` returns
exactly `b`.  The cipher laws of the external AES-GCM primitive are the
stated hypotheses. -/
theorem encrypt_decrypt_roundtrip {K : Type} (A : AEAD K)
    (hC : AEADCorrect A) (hL : AEADTagLen A) (hB : AEADBytes A)
    (b : List Nat) (k : K) (iv : List Nat)
    (hb : ∀ x ∈ b, x < 256) (hiv : ∀ x ∈ iv, x < 256) :
    decryptData A (encryptData A b k iv).encryptedData
      (encryptData A b k iv).iv (encryptData A b k iv).authTag k
      = Except.ok b :=
  decryptData_encryptData A hC hL hB b k iv hb hiv

/-- Witness for C1: the round trip evaluated on the concrete bytes
`[0, 1, 127, 255]` under the toy cipher with key 5 and a fixed 12-byte IV. -/
theorem encrypt_decrypt_roundtrip_witness :
    decryptData toyAEAD
      (encryptData toyAEAD [0, 1, 127, 255] (5 : Fin 256) [0,1,2,3,4,5,6,7,8,9,10,11]).encryptedData
      (encryptData toyAEAD [0, 1, 127, 255] (5 : Fin 256) [0,1,2,3,4,5,6,7,8,9,10,11]).iv
      (encryptData toyAEAD [0, 1, 127, 255] (5 : Fin 256) [0,1,2,3,4,5,6,7,8,9,10,11]).authTag
      (5 : Fin 256)
      = Except.ok [0, 1, 127, 255] :=
  encrypt_decrypt_roundtrip toyAEAD toy_correct toy_taglen toy_bytes
    [0, 1, 127, 255] (5 : Fin 256) [0,1,2,3,4,5,6,7,8,9,10,11]
    (by decide) (by decide)

/-- Claim C8: decoding the base64 encoding of any byte sequence returns
exactly that sequence, and the empty sequence encodes to the empty
string. -/
theorem base64_encode_decode (b : List Nat) (hb : ∀ x ∈ b, x < 256) :
    base64ToArrayBuffer (arrayBufferToBase64 b) = some b ∧
    arrayBufferToBase64 [] = "" :=
  ⟨base64_roundtrip b hb, rfl⟩

/-- Witness for C8: the round trip evaluated on `[0, 77, 255]`, whose
encoding exercises a padded final group. -/
theorem base64_encode_decode_witness :
    base64ToArrayBuffer (arrayBufferToBase64 [0, 77, 255]) = some [0, 77, 255] ∧
    arrayBufferToBase64 [] = "" :=
  base64_encode_decode [0, 77, 255] (by decide)

/-- Counterexample to claim C9 as stated: a key string decoding to 16
bytes — a length other than 32 — is imported as a usable key rather
than rejected, because `crypto.subtle.importKey('raw', …)` ignores the
`length` member and accepts 128-, 192- and 256-bit AES material. -/
theorem importKey_accepts_16_bytes :
    base64ToArrayBuffer "AAAAAAAAAAAAAAAAAAAAAA==" = some (List.replicate 16 0) ∧
    (List.replicate 16 0 : List Nat).length ≠ 32 ∧
    importKey "AAAAAAAAAAAAAAAAAAAAAA==" = some (List.replicate 16 0) := by
  refine ⟨by decide, by decide, by decide⟩

/-- Claim C9 (amended): `CryptoUtils.importKey` fails instead of
returning a usable key exactly on the lengths raw AES import rejects —
whenever the base64 decoding of the key string has a length other than
16, 24 or 32 bytes; decoded lengths 16 and 24 are imported as usable
AES-128/192 keys, so only the non-AES lengths are rejected. -/
theorem importKey_rejects_bad_length (s : String) (bytes : List Nat)
    (hdec : base64ToArrayBuffer s = some bytes)
    (hlen : bytes.length ≠ 16 ∧ bytes.length ≠ 24 ∧ bytes.length ≠ 32) :
    importKey s = none := by
  simp [importKey, hdec, hlen.1, hlen.2.1, hlen.2.2]

/-- Witness for the amended C9: `"AAAA"` decodes to the 3-byte buffer
`[0, 0, 0]`, and `importKey` rejects it. -/
theorem importKey_rejects_bad_length_witness :
    base64ToArrayBuffer "AAAA" = some [0, 0, 0] ∧
    ([0, 0, 0] : List Nat).length ≠ 16 ∧
    ([0, 0, 0] : List Nat).length ≠ 24 ∧
    ([0, 0, 0] : List Nat).length ≠ 32 ∧
    importKey "AAAA" = none :=
  ⟨by decide, by decide, by decide, by decide,
    importKey_rejects_bad_length "AAAA" [0, 0, 0] (by decide)
      ⟨by decide, by decide, by decide⟩⟩

/-- Claim C6 (the concrete `"hello world"` instance is the witness): every `CryptoUtils.encryptData` result
has an IV decoding to the original 12 random bytes, an auth tag decoding
to the last 16 bytes of the cipher output buffer, and a ciphertext
decoding to all but those last 16 bytes, so decoded ciphertext length
plus 16 is the full output length and equals the plaintext length
plus 16. -/
theorem encrypt_result_shape {K : Type} (A : AEAD K)
    (hL : AEADTagLen A) (hB : AEADBytes A)
    (data : List Nat) (key : K) (iv : List Nat)
    (hdata : ∀ x ∈ data, x < 256) (hiv : ∀ x ∈ iv, x < 256)
    (hivlen : iv.length = 12) :
    ∃ ivB tagB ctB,
      base64ToArrayBuffer (encryptData A data key iv).iv = some ivB ∧
      ivB.length = 12 ∧
      base64ToArrayBuffer (encryptData A data key iv).authTag = some tagB ∧
      tagB = (A.enc key iv data).drop ((A.enc key iv data).length - 16) ∧
      tagB.length = 16 ∧
      base64ToArrayBuffer (encryptData A data key iv).encryptedData = some ctB ∧
      ctB = (A.enc key iv data).take ((A.enc key iv data).length - 16) ∧
      ctB.length + 16 = (A.enc key iv data).length ∧
      ctB.length = data.length := by
  obtain ⟨h1, h2, h3⟩ := encryptData_fields A hL hB data key iv hdata hiv
  have hlen : (A.enc key iv data).length = data.length + 16 := hL key iv data
  have hsub : (A.enc key iv data).length - 16 = data.length := by omega
  refine ⟨iv, (A.enc key iv data).drop data.length, (A.enc key iv data).take data.length,
    h2, hivlen, h3, by rw [hsub], ?_, h1, by rw [hsub], ?_, ?_⟩
  · simp [List.length_drop, hlen]
  · simp [List.length_take, hlen]
  · simp [List.length_take, hlen]

/-- Witness for C6: encrypting the 11-byte text `"hello world"`
(`CryptoUtils.encryptData` on a string payload) under the toy cipher
yields a 12-byte IV, a 16-byte auth tag and an 11-byte ciphertext. -/
theorem encrypt_result_shape_witness :
    ∃ ivB tagB ctB,
      base64ToArrayBuffer
          (encryptDataStr toyAEAD "hello world" (7 : Fin 256) [9,8,7,6,5,4,3,2,1,0,1,2]).iv
        = some ivB ∧
      ivB.length = 12 ∧
      base64ToArrayBuffer
          (encryptDataStr toyAEAD "hello world" (7 : Fin 256) [9,8,7,6,5,4,3,2,1,0,1,2]).authTag
        = some tagB ∧
      tagB.length = 16 ∧
      base64ToArrayBuffer
          (encryptDataStr toyAEAD "hello world" (7 : Fin 256) [9,8,7,6,5,4,3,2,1,0,1,2]).encryptedData
        = some ctB ∧
      ctB.length = 11 := by
  obtain ⟨ivB, tagB, ctB, hiv, hivlen, htag, -, htaglen, hct, -, -, hctlen⟩ :=
    encrypt_result_shape toyAEAD toy_taglen toy_bytes
      (utf8Encode "hello world") (7 : Fin 256) [9,8,7,6,5,4,3,2,1,0,1,2]
      (utf8Encode_lt "hello world") (by decide) (by decide)
  have h11 : (utf8Encode "hello world").length = 11 := by decide
  exact ⟨ivB, tagB, ctB, hiv, hivlen, htag, htaglen, hct, by rw [hctlen, h11]⟩

/-- Counterexample to claim C7 as stated: on malformed base64 input the
code does not raise the generic decryption error — the `atob` failure
escapes before the `try` block — so malformed inputs are distinguishable
from authentication failures. -/
theorem malformed_input_not_decryptionError :
    decryptData toyAEAD "%%%" "AAAA" "AAAA" (0 : Fin 256)
        = Except.error DecError.formatError ∧
    decryptData toyAEAD "%%%" "AAAA" "AAAA" (0 : Fin 256)
        ≠ Except.error DecError.decryptionError := by
  have h : decryptData toyAEAD "%%%" "AAAA" "AAAA" (0 : Fin 256)
      = Except.error DecError.formatError := rfl
  refine ⟨h, ?_⟩
  rw [h]
  simp

/-- Claim C7 (amended): `CryptoUtils.decryptData` returns plaintext
exactly when all three base64 fields decode and the authenticated
cipher accepts the reassembled `ciphertext ++ authTag`; it raises the
single generic decryption error exactly when the fields decode but the
cipher rejects (wrong key or tampered bytes); and it fails with the
codec's format error — a different, uncaught error — exactly when some
field is malformed base64. -/
theorem decryptData_error_cases {K : Type} (A : AEAD K)
    (encryptedData iv authTag : String) (key : K) :
    (∀ m, decryptData A encryptedData iv authTag key = Except.ok m ↔
      ∃ c i t, base64ToArrayBuffer encryptedData = some c ∧
        base64ToArrayBuffer iv = some i ∧ base64ToArrayBuffer authTag = some t ∧
        A.dec key i (c ++ t) = some m) ∧
    (decryptData A encryptedData iv authTag key = Except.error DecError.decryptionError ↔
      ∃ c i t, base64ToArrayBuffer encryptedData = some c ∧
        base64ToArrayBuffer iv = some i ∧ base64ToArrayBuffer authTag = some t ∧
        A.dec key i (c ++ t) = none) ∧
    (decryptData A encryptedData iv authTag key = Except.error DecError.formatError ↔
      base64ToArrayBuffer encryptedData = none ∨ base64ToArrayBuffer iv = none ∨
        base64ToArrayBuffer authTag = none) := by
  rcases h1 : base64ToArrayBuffer encryptedData with - | c
  · simp [decryptData, h1]
  · rcases h2 : base64ToArrayBuffer iv with - | i
    · simp [decryptData, h1, h2]
    · rcases h3 : base64ToArrayBuffer authTag with - | t
      · simp [decryptData, h1, h2, h3]
      · rcases h4 : A.dec key i (c ++ t) with - | m
        · simp [decryptData, h1, h2, h3, h4]
        · simp [decryptData, h1, h2, h3, h4]

/-- A one-time-view share link protected by the password `"pw"` (stored
as its hash), with no expiry and no max-view limit, as created by
`ShareService.createShareLink`.  The SHA-256 primitive is instantiated
with the identity on byte lists, which the abstract digest permits. -/
def oneTimeLink : ShareLink :=
  { token := "tok"
  , password_hash := some (hashPassword (fun bs => bs) "pw")
  , expires_at := none
  , one_time_view := true
  , view_count := 0
  , max_views := none
  , is_active := true }

/-- Counterexample to claim C2 as stated: after `incrementViewCount`
consumes the one-time-view link, `validateShareAccess` on the updated
row still returns `true` with the correct password — the function never
consults `is_active`, `one_time_view`, or (absent `max_views`) the view
count. -/
theorem validate_after_one_time_view_true :
    validateShareAccess (fun bs => bs) 1000 (incrementViewCount oneTimeLink) (some "pw")
      = true := by decide

/-- Claim C2 (amended): consuming a one-time-view link deactivates it —
`incrementViewCount` sets `is_active` to `false`, so the link can no
longer be retrieved through `getShareByToken` (which filters on
`is_active`) — but `validateShareAccess` itself does not deny the
access. -/
theorem one_time_view_deactivates (link : ShareLink) (h : link.one_time_view = true) :
    (incrementViewCount link).is_active = false ∧
    getShareByToken [incrementViewCount link] link.token = none := by
  have h2 : (incrementViewCount link).is_active = false := by
    simp [incrementViewCount, h]
  refine ⟨h2, ?_⟩
  simp [getShareByToken, List.find?, h2]

/-- Witness for the amended C2 on the concrete one-time-view link. -/
theorem one_time_view_deactivates_witness :
    (incrementViewCount oneTimeLink).is_active = false ∧
    getShareByToken [incrementViewCount oneTimeLink] oneTimeLink.token = none :=
  one_time_view_deactivates oneTimeLink rfl

/-- Claim C10: `CryptoUtils.hashPassword` is a deterministic function of
the password (given the fixed SHA-256 primitive), so the stored-hash
equality comparison in `ShareService.validateShareAccess` accepts the
correct password: a link whose `password_hash` was produced by
`hashPassword` from a password validates under that same password. -/
theorem hashPassword_deterministic (digest : List Nat → List Nat) (p q : String)
    (hpq : p = q) (pw : String) (hpw : pw ≠ "") (link : ShareLink) (now : Nat)
    (hhash : link.password_hash = some (hashPassword digest pw))
    (hexp : link.expires_at = none) (hmax : link.max_views = none) :
    hashPassword digest p = hashPassword digest q ∧
    validateShareAccess digest now link (some pw) = true := by
  refine ⟨by rw [hpq], ?_⟩
  by_cases hne : hashPassword digest pw = ""
  · simp [validateShareAccess, hexp, hmax, hhash, strTruthy, hne]
  · simp [validateShareAccess, hexp, hmax, hhash, strTruthy, hne, hpw]

/-- Witness for C10 at the identity digest, password `"pw"` and a fresh
link storing that password's hash. -/
theorem hashPassword_deterministic_witness :
    hashPassword (fun bs => bs) "pw" = hashPassword (fun bs => bs) "pw" ∧
    validateShareAccess (fun bs => bs) 42
      { token := "t2"
      , password_hash := some (hashPassword (fun bs => bs) "pw")
      , expires_at := none
      , one_time_view := false
      , view_count := 0
      , max_views := none
      , is_active := true } (some "pw") = true :=
  hashPassword_deterministic (fun bs => bs) "pw" "pw" rfl "pw" (by decide)
    _ 42 rfl rfl rfl

/-! ### XOR lemmas for the secret splitter -/

theorem xor_head (a b c : Nat) : (b ^^^ c) ^^^ ((a ^^^ b) ^^^ c) = a := by
  rw [Nat.xor_assoc a b c, Nat.xor_comm a (b ^^^ c), ← Nat.xor_assoc,
    Nat.xor_self, Nat.zero_xor]

theorem xor_unmask (s r1 r2 : List Nat)
    (h1 : r1.length = s.length) (h2 : r2.length = s.length) :
    xorBytes (xorBytes r1 r2) (xorBytes (xorBytes s r1) r2) = s := by
  induction s generalizing r1 r2 with
  | nil =>
      have e1 : r1 = [] := List.eq_nil_of_length_eq_zero (by simpa using h1)
      have e2 : r2 = [] := List.eq_nil_of_length_eq_zero (by simpa using h2)
      simp [e1, e2, xorBytes]
  | cons a s ih =>
      cases r1 with
      | nil => simp at h1
      | cons b tb =>
          cases r2 with
          | nil => simp at h2
          | cons c tc =>
              simp only [xorBytes, List.zipWith_cons_cons, List.cons.injEq]
              exact ⟨xor_head a b c,
                ih tb tc (by simpa using h1) (by simpa using h2)⟩

theorem xorBytes_lt (xs ys : List Nat)
    (hx : ∀ x ∈ xs, x < 256) (hy : ∀ y ∈ ys, y < 256) :
    ∀ z ∈ xorBytes xs ys, z < 256 := by
  induction xs generalizing ys with
  | nil => simp [xorBytes]
  | cons a ta ih =>
      cases ys with
      | nil => simp [xorBytes]
      | cons b tb =>
          intro z hz
          simp only [xorBytes, List.zipWith_cons_cons, List.mem_cons] at hz
          rcases hz with h | h
          · have ha : a < 2 ^ 8 := by simpa using hx a (by simp)
            have hb : b < 2 ^ 8 := by simpa using hy b (by simp)
            have := Nat.xor_lt_two_pow ha hb
            omega
          · exact ih tb (fun x hx2 => hx x (by simp [hx2]))
              (fun y hy2 => hy y (by simp [hy2])) z h

theorem xorBytes_length (xs ys : List Nat) :
    (xorBytes xs ys).length = min xs.length ys.length := by
  simp [xorBytes]

/-- Counterexample to claim C3 as stated: splitting the secret `"a"`
with masks `[1]` and `[2]` and reconstructing from the designated
(user/primary, recovery) pair does not return `"a"` — the pair XORs to
the mask combination `r1 ⊕ r2`, which carries no part of the secret. -/
theorem reconstruct_user_recovery_not_secret :
    reconstructSecretShamir
        ((splitSecretShamir "a" [1] [2]).get ⟨0, by decide⟩).encryptedShare
        ((splitSecretShamir "a" [1] [2]).get ⟨1, by decide⟩).encryptedShare
      ≠ Except.ok "a" := by
  intro h
  have h2 : Except.ok (ε := ReconstructError) (utf8Decode [3]) = Except.ok "a" := by
    rw [← h]; rfl
  have h3 : utf8Decode [3] = "a" := by injection h2
  revert h3
  decide

/-- Claim C3 (amended): `reconstructSecretShamir` on the (primary,
recovery) pair returns the decoded XOR `r1 ⊕ r2` of the two random
masks — a value independent of the secret — and the secret's UTF-8
bytes are recovered only by further XORing that byte result with the
decoded device share. -/
theorem reconstruct_pair_misses_secret (s : String) (r1 r2 : List Nat)
    (h1 : r1.length = (utf8Encode s).length) (h2 : r2.length = (utf8Encode s).length)
    (hb1 : ∀ x ∈ r1, x < 256) (hb2 : ∀ x ∈ r2, x < 256) :
    ∃ u rv d, splitSecretShamir s r1 r2 = [u, rv, d] ∧
      reconstructSecretShamir u.encryptedShare rv.encryptedShare
        = Except.ok (utf8Decode (xorBytes r1 r2)) ∧
      ∃ bd, base64ToArrayBuffer d.encryptedShare = some bd ∧
        xorBytes (xorBytes r1 r2) bd = utf8Encode s := by
  refine ⟨⟨ShareType.user_share, arrayBufferToBase64 r1⟩,
    ⟨ShareType.recovery_share, arrayBufferToBase64 r2⟩,
    ⟨ShareType.device_share, arrayBufferToBase64 (xorBytes (xorBytes (utf8Encode s) r1) r2)⟩,
    rfl, ?_, xorBytes (xorBytes (utf8Encode s) r1) r2, ?_, ?_⟩
  · have hlen : ¬ r1.length ≠ r2.length := by omega
    simp only [reconstructSecretShamir, base64_roundtrip r1 hb1, base64_roundtrip r2 hb2,
      if_neg hlen]
  · exact base64_roundtrip _
      (xorBytes_lt _ _ (xorBytes_lt _ _ (utf8Encode_lt s) hb1) hb2)
  · exact xor_unmask (utf8Encode s) r1 r2 h1 h2

/-- Witness for the amended C3: secret `"ab"` with masks `[1, 2]` and
`[3, 4]`. -/
theorem reconstruct_pair_misses_secret_witness :
    ∃ u rv d, splitSecretShamir "ab" [1, 2] [3, 4] = [u, rv, d] ∧
      reconstructSecretShamir u.encryptedShare rv.encryptedShare
        = Except.ok (utf8Decode (xorBytes [1, 2] [3, 4])) ∧
      ∃ bd, base64ToArrayBuffer d.encryptedShare = some bd ∧
        xorBytes (xorBytes [1, 2] [3, 4]) bd = utf8Encode "ab" :=
  reconstruct_pair_misses_secret "ab" [1, 2] [3, 4]
    (by decide) (by decide) (by decide) (by decide)

/-- Claim C4: splitting any secret yields exactly the three
user/recovery/device shares, each decoding to a byte buffer of the
secret's UTF-8 length, and the byte-wise XOR of the three decoded
buffers is exactly the secret's UTF-8 encoding. -/
theorem split_shares_xor_to_secret (s : String) (r1 r2 : List Nat)
    (h1 : r1.length = (utf8Encode s).length) (h2 : r2.length = (utf8Encode s).length)
    (hb1 : ∀ x ∈ r1, x < 256) (hb2 : ∀ x ∈ r2, x < 256) :
    ∃ u rv d, splitSecretShamir s r1 r2 = [u, rv, d] ∧
      u.shareType = ShareType.user_share ∧
      rv.shareType = ShareType.recovery_share ∧
      d.shareType = ShareType.device_share ∧
      ∃ bu bv bd,
        base64ToArrayBuffer u.encryptedShare = some bu ∧
        base64ToArrayBuffer rv.encryptedShare = some bv ∧
        base64ToArrayBuffer d.encryptedShare = some bd ∧
        bu.length = (utf8Encode s).length ∧
        bv.length = (utf8Encode s).length ∧
        bd.length = (utf8Encode s).length ∧
        xorBytes (xorBytes bu bv) bd = utf8Encode s := by
  refine ⟨⟨ShareType.user_share, arrayBufferToBase64 r1⟩,
    ⟨ShareType.recovery_share, arrayBufferToBase64 r2⟩,
    ⟨ShareType.device_share, arrayBufferToBase64 (xorBytes (xorBytes (utf8Encode s) r1) r2)⟩,
    rfl, rfl, rfl, rfl, r1, r2, xorBytes (xorBytes (utf8Encode s) r1) r2,
    base64_roundtrip r1 hb1, base64_roundtrip r2 hb2, ?_, h1, h2, ?_, ?_⟩
  · exact base64_roundtrip _
      (xorBytes_lt _ _ (xorBytes_lt _ _ (utf8Encode_lt s) hb1) hb2)
  · rw [xorBytes_length, xorBytes_length]; omega
  · exact xor_unmask (utf8Encode s) r1 r2 h1 h2

/-- Witness for C4: secret `"ab"` with masks `[5, 9]` and `[17, 250]`. -/
theorem split_shares_xor_to_secret_witness :
    ∃ u rv d, splitSecretShamir "ab" [5, 9] [17, 250] = [u, rv, d] ∧
      u.shareType = ShareType.user_share ∧
      rv.shareType = ShareType.recovery_share ∧
      d.shareType = ShareType.device_share ∧
      ∃ bu bv bd,
        base64ToArrayBuffer u.encryptedShare = some bu ∧
        base64ToArrayBuffer rv.encryptedShare = some bv ∧
        base64ToArrayBuffer d.encryptedShare = some bd ∧
        bu.length = (utf8Encode "ab").length ∧
        bv.length = (utf8Encode "ab").length ∧
        bd.length = (utf8Encode "ab").length ∧
        xorBytes (xorBytes bu bv) bd = utf8Encode "ab" :=
  split_shares_xor_to_secret "ab" [5, 9] [17, 250]
    (by decide) (by decide) (by decide) (by decide)

/-- Claim C5: a completed `FileService.regenerateFileKey` on a file row
whose stored `EncryptionResult` was produced under `oldKey` yields a row
whose version is the old version plus exactly one, whose contents
decrypt to the original plaintext under the new key, and whose contents
fail with the generic decryption error under the old key. -/
theorem key_rotation {K : Type} (A : AEAD K)
    (hC : AEADCorrect A) (hL : AEADTagLen A) (hB : AEADBytes A) (hS : AEADKeySep A)
    (plain iv0 iv1 : List Nat) (oldKey newKey : K) (hne : oldKey ≠ newKey)
    (hp : ∀ x ∈ plain, x < 256)
    (h0 : ∀ x ∈ iv0, x < 256) (h1 : ∀ x ∈ iv1, x < 256)
    (v : Nat) (file : EncryptedFileRow)
    (hfile : file =
      { encrypted_data := (encryptData A plain oldKey iv0).encryptedData
      , iv := (encryptData A plain oldKey iv0).iv
      , auth_tag := (encryptData A plain oldKey iv0).authTag
      , version := v }) :
    ∃ rotated, regenerateFileKey A file oldKey newKey iv1 = some rotated ∧
      rotated.version = v + 1 ∧
      decryptData A rotated.encrypted_data rotated.iv rotated.auth_tag newKey
        = Except.ok plain ∧
      decryptData A rotated.encrypted_data rotated.iv rotated.auth_tag oldKey
        = Except.error DecError.decryptionError := by
  subst hfile
  have hstep : regenerateFileKey A
      { encrypted_data := (encryptData A plain oldKey iv0).encryptedData
      , iv := (encryptData A plain oldKey iv0).iv
      , auth_tag := (encryptData A plain oldKey iv0).authTag
      , version := v } oldKey newKey iv1
      = some
      { encrypted_data := (encryptData A plain newKey iv1).encryptedData
      , iv := (encryptData A plain newKey iv1).iv
      , auth_tag := (encryptData A plain newKey iv1).authTag
      , version := v + 1 } := by
    rw [regenerateFileKey]
    rw [decryptData_encryptData A hC hL hB plain oldKey iv0 hp h0]
  refine ⟨_, hstep, rfl, ?_, ?_⟩
  · exact decryptData_encryptData A hC hL hB plain newKey iv1 hp h1
  · exact decryptData_encryptData_wrongKey A hL hB hS plain newKey oldKey
      (Ne.symm hne) iv1 hp h1

/-- Witness for C5: rotating a file of plaintext `[42, 10]` from toy key
3 to toy key 4 bumps version 7 to 8, the new key decrypts, the old key
fails. -/
theorem key_rotation_witness :
    ∃ rotated, regenerateFileKey toyAEAD
      { encrypted_data :=
          (encryptData toyAEAD [42, 10] (3 : Fin 256) [0,0,0,0,0,0,0,0,0,0,0,0]).encryptedData
      , iv := (encryptData toyAEAD [42, 10] (3 : Fin 256) [0,0,0,0,0,0,0,0,0,0,0,0]).iv
      , auth_tag :=
          (encryptData toyAEAD [42, 10] (3 : Fin 256) [0,0,0,0,0,0,0,0,0,0,0,0]).authTag
      , version := 7 } (3 : Fin 256) (4 : Fin 256) [1,1,1,1,1,1,1,1,1,1,1,1]
      = some rotated ∧
      rotated.version = 7 + 1 ∧
      decryptData toyAEAD rotated.encrypted_data rotated.iv rotated.auth_tag (4 : Fin 256)
        = Except.ok [42, 10] ∧
      decryptData toyAEAD rotated.encrypted_data rotated.iv rotated.auth_tag (3 : Fin 256)
        = Except.error DecError.decryptionError :=
  key_rotation toyAEAD toy_correct toy_taglen toy_bytes toy_keysep
    [42, 10] [0,0,0,0,0,0,0,0,0,0,0,0] [1,1,1,1,1,1,1,1,1,1,1,1]
    (3 : Fin 256) (4 : Fin 256) (by decide)
    (by decide) (by decide) (by decide) 7 _ rfl

end SecureVault
